import Mathlib

/-!
Verification of the Markdown-to-flowables converter in `pdf_generator.py`.

Strings are modelled as `List Char`.  Python's `str` operations used by the
source (`strip`, `lstrip`, `strip("|")`, `split("|")`, `splitlines`,
`startswith`, `replace`, `html.escape`, and the two `re.sub` calls with
non-greedy patterns) are given executable shallow embeddings below, each
documented with the exact source construct it models.
-/

set_option autoImplicit false

namespace PdfGen

/-- Python `str.isspace` / the whitespace set used by `str.strip()` and
`str.lstrip()` with no argument: ASCII whitespace, the C1 separators
`\x1c`-`\x1f`, `\x85`, and the Unicode space separators. -/
def pyIsSpace (c : Char) : Bool :=
  c = ' ' || c = '\t' || c = '\n' || c = '\r' || c = '\x0b' || c = '\x0c' ||
  (0x1c ≤ c.toNat && c.toNat ≤ 0x1f) || c = '\x85' || c = '\u00A0' ||
  c = '\u1680' || (0x2000 ≤ c.toNat && c.toNat ≤ 0x200A) ||
  c = '\u2028' || c = '\u2029' || c = '\u202F' || c = '\u205F' || c = '\u3000'

/-- Drop from the left every character satisfying `p` (Python `lstrip`). -/
def lstripP (p : Char → Bool) (s : List Char) : List Char :=
  s.dropWhile p

/-- Drop from the right every character satisfying `p` (Python `rstrip`). -/
def rstripP (p : Char → Bool) (s : List Char) : List Char :=
  (s.reverse.dropWhile p).reverse

/-- Python `str.strip` with a character-class predicate: drop matching
characters from both ends. -/
def stripP (p : Char → Bool) (s : List Char) : List Char :=
  rstripP p (lstripP p s)

/-- Python `line.strip()` (no argument): strip whitespace from both ends. -/
def pyStrip (s : List Char) : List Char :=
  stripP pyIsSpace s

/-- Python `s.split(sep)` for a one-character separator: splits at every
occurrence, so the empty string splits to one empty field and a lone
separator splits to two empty fields. -/
def splitOnChar (sep : Char) : List Char → List (List Char)
  | [] => [[]]
  | c :: rest =>
    let r := splitOnChar sep rest
    if c = sep then [] :: r
    else
      match r with
      | [] => [[c]]
      | h :: t => (c :: h) :: t

/-- Line-break characters recognized by Python `str.splitlines`. -/
def isLineBreak (c : Char) : Bool :=
  c = '\n' || c = '\r' || c = '\x0b' || c = '\x0c' || c = '\x1c' ||
  c = '\x1d' || c = '\x1e' || c = '\x85' || c = '\u2028' || c = '\u2029'

/-- Worker for `splitLines`; `acc` holds the current line reversed. -/
def splitLinesGo : List Char → List Char → List (List Char)
  | [], acc => if acc.isEmpty then [] else [acc.reverse]
  | '\r' :: '\n' :: rest, acc => acc.reverse :: splitLinesGo rest []
  | c :: rest, acc =>
    if isLineBreak c then acc.reverse :: splitLinesGo rest []
    else splitLinesGo rest (c :: acc)

/-- Python `str.splitlines()`: the empty string gives no lines, a trailing
terminator adds no empty final line, and CR-LF counts as a single break. -/
def splitLines (s : List Char) : List (List Char) :=
  splitLinesGo s []

/-- Fuel-indexed worker for `replaceList`.  Mirrors Python
`str.replace(pat, rep)`: scan left to right, replace each non-overlapping
occurrence of `pat`.  One fuel unit is spent per step; since every step
consumes at least one input character, fuel `s.length` never runs out, so the
fuel-exhaustion branch is dead code. -/
def replL (pat rep : List Char) : Nat → List Char → List Char
  | _, [] => []
  | 0, s => s
  | n + 1, c :: rest =>
    if !pat.isEmpty && pat.isPrefixOf (c :: rest) then
      rep ++ replL pat rep n (List.drop pat.length (c :: rest))
    else
      c :: replL pat rep n rest

/-- Python `s.replace(pat, rep)` for a non-empty pattern. -/
def replaceList (pat rep s : List Char) : List Char :=
  replL pat rep s.length s

/-- Does `pat` occur as a contiguous substring of `s`? -/
def hasSub (pat s : List Char) : Bool :=
  s.tails.any (fun t => pat.isPrefixOf t)

/-- Character-level form of the `repl` table in `_sanitize`: en/em dash to
hyphen, NBSP and narrow NBSP to space, soft hyphen to hyphen, word joiner to
nothing.  The source applies six sequential single-character `str.replace`
calls; since no replacement character is itself a key of the table, that
equals this single per-character expansion. -/
def replChar (c : Char) : List Char :=
  if c = '\u2013' then ('-' :: [])
  else if c = '\u2014' then ('-' :: [])
  else if c = '\u00A0' then (' ' :: [])
  else if c = '\u202F' then (' ' :: [])
  else if c = '\u00AD' then ('-' :: [])
  else if c = '\u2060' then []
  else (c :: [])

/-- Unicode general categories beginning with `C`, as tested by the source
via `unicodedata`: the control ranges (Cc), the format characters (Cf), the
private-use ranges (Co) and the designated noncharacters.  Surrogates (Cs)
are not representable in `Char`.  The scattered unassigned (Cn) code points
are not enumerable here; no claim in this development depends on the
predicate's value outside the listed ranges. -/
def catC (c : Char) : Bool :=
  let n := c.toNat
  n < 0x20 || (0x7F ≤ n && n ≤ 0x9F) ||
  n = 0xAD ||
  (0x600 ≤ n && n ≤ 0x605) || n = 0x61C || n = 0x6DD || n = 0x70F ||
  n = 0x8E2 || n = 0x180E ||
  (0x200B ≤ n && n ≤ 0x200F) || (0x202A ≤ n && n ≤ 0x202E) ||
  (0x2060 ≤ n && n ≤ 0x2064) || (0x2066 ≤ n && n ≤ 0x206F) ||
  n = 0xFEFF || (0xFFF9 ≤ n && n ≤ 0xFFFB) ||
  (0xE000 ≤ n && n ≤ 0xF8FF) ||
  (0xF0000 ≤ n && n ≤ 0xFFFFD) || (0x100000 ≤ n && n ≤ 0x10FFFD) ||
  (0xFDD0 ≤ n && n ≤ 0xFDEF) || n % 0x10000 = 0xFFFE || n % 0x10000 = 0xFFFF

/-- Filter condition of `_sanitize`: keep `ch` when its category does not
start with `C`, or when it is newline or tab. -/
def keepChar (c : Char) : Bool :=
  !catC c || c = '\n' || c = '\t'

/-- First stage of `_sanitize`: the `repl`-table replacement loop. -/
def replStep (s : List Char) : List Char :=
  (s.map replChar).flatten

/-- Second stage of `_sanitize`: strip category-C characters except newline
and tab. -/
def ctrlStep (s : List Char) : List Char :=
  s.filter keepChar

/-- Literal characters of the `&nbsp;` entity. -/
def nbspPat : List Char := ('&' :: 'n' :: 'b' :: 's' :: 'p' :: ';' :: [])

/-- Literal characters of the `&quot;` entity. -/
def quotPat : List Char := ('&' :: 'q' :: 'u' :: 'o' :: 't' :: ';' :: [])

/-- Literal characters of the `&amp;` entity. -/
def ampPat : List Char := ('&' :: 'a' :: 'm' :: 'p' :: ';' :: [])

/-- Third stage of `_sanitize`: decode the three literal HTML entities, in
source order `&nbsp;`, then `&quot;`, then `&amp;`. -/
def entStep (s : List Char) : List Char :=
  replaceList ampPat ('&' :: [])
    (replaceList quotPat ('"' :: [])
      (replaceList nbspPat (' ' :: []) s))

/-- The `_sanitize` function of the source: glyph replacement, then the
category-C strip, then entity decoding. -/
def sanitize (s : List Char) : List Char :=
  entStep (ctrlStep (replStep s))

/-- Per-character expansion of Python `html.escape(t)` (with its default
`quote=True`): ampersand, angle brackets, double quote and apostrophe become
entities.  `html.escape` performs five sequential `str.replace` calls with
the ampersand first; since the later replacements introduce no further
ampersands to the left of their own position and target characters never
produced by the earlier ones, the sequence equals this per-character map. -/
def escChar (c : Char) : List Char :=
  if c = '&' then ('&' :: 'a' :: 'm' :: 'p' :: ';' :: [])
  else if c = '<' then ('&' :: 'l' :: 't' :: ';' :: [])
  else if c = '>' then ('&' :: 'g' :: 't' :: ';' :: [])
  else if c = '"' then ('&' :: 'q' :: 'u' :: 'o' :: 't' :: ';' :: [])
  else if c = '\'' then ('&' :: '#' :: 'x' :: '2' :: '7' :: ';' :: [])
  else (c :: [])

/-- Python `html.escape` on a character list. -/
def htmlEscape (s : List Char) : List Char :=
  (s.map escChar).flatten

/-- Locate the closing delimiter for a non-greedy `(.+?)` group: consume at
least one non-newline content character, and after each one test whether
`delim` follows; return the input remaining after the closing delimiter of
the shortest such match, or `none`. -/
def findEnd (delim : List Char) : List Char → Option (List Char)
  | [] => none
  | c :: rest =>
    if c = '\n' then none
    else if delim.isPrefixOf rest then some (rest.drop delim.length)
    else findEnd delim rest

/-- Try to match `delim ++ (.+?) ++ delim` at the start of `s`; on success
return the input remaining after the match. -/
def matchAt (delim : List Char) (s : List Char) : Option (List Char) :=
  if delim.isPrefixOf s then findEnd delim (s.drop delim.length) else none

/-- Fuel-indexed worker for `subNonGreedy`.  Mirrors `re.sub` with pattern
`delim (.+?) delim` and a constant replacement string: scan left to right,
replace each leftmost-shortest match, resume after it.  Each step consumes
at least one character, so fuel `s.length` never runs out. -/
def subNG (delim rep : List Char) : Nat → List Char → List Char
  | _, [] => []
  | 0, s => s
  | n + 1, c :: rest =>
    match matchAt delim (c :: rest) with
    | some remainder => rep ++ subNG delim rep n remainder
    | none => c :: subNG delim rep n rest

/-- Python `re.sub(delim (.+?) delim, rep, s)` for a constant replacement
string `rep`. -/
def subNonGreedy (delim rep s : List Char) : List Char :=
  subNG delim rep s.length s

/-- Replacement string of the bold substitution in `_fmt_inline`.  The source
template is the raw string `r"<b>\\1</b>"`, whose `\\` is an escaped literal
backslash for `re.sub`, so the inserted text is the five characters
`<b>\1</b>`-with-literal-backslash-one, not the captured group. -/
def boldRep : List Char :=
  ('<' :: 'b' :: '>' :: '\\' :: '1' :: '<' :: '/' :: 'b' :: '>' :: [])

/-- Replacement string of the italic substitution in `_fmt_inline`; same
literal-backslash situation as `boldRep`. -/
def italRep : List Char :=
  ('<' :: 'i' :: '>' :: '\\' :: '1' :: '<' :: '/' :: 'i' :: '>' :: [])

/-- The `_fmt_inline` function of the source: `html.escape`, then the
double-asterisk (bold) substitution, then the single-asterisk (italic)
substitution. -/
def fmt_inline (s : List Char) : List Char :=
  subNonGreedy ('*' :: []) italRep
    (subNonGreedy ('*' :: '*' :: []) boldRep (htmlEscape s))

/-- Paragraph styles used by the source (`STYLES[...]` names). -/
inductive Style where
  | H1
  | H2
  | H3
  | Body
  | Code
deriving DecidableEq

/-- ReportLab flowables as produced by `markdown_to_flowables`: a `Paragraph`
with a named style and markup text, the constant-size `Spacer(1, 0.15*inch)`,
and a `Table` built by `_table` from rows of markup cell strings (`_table`
only wraps each cell in a Body-style `Paragraph` and attaches fixed styling,
so the row matrix is its entire data content). -/
inductive Flowable where
  | Para : Style → List Char → Flowable
  | Spacer : Flowable
  | Table : List (List (List Char)) → Flowable
deriving DecidableEq

/-- Scan state of `markdown_to_flowables`: the output list `flow`, the two
buffers, and the inside-fence flag. -/
structure ScanState where
  flow : List Flowable
  code_buf : List (List Char)
  table_buf : List (List (List Char))
  in_code : Bool
deriving DecidableEq

/-- Initial scan state: `flow, code_buf, table_buf = [], [], []` and
`in_code = False`. -/
def initState : ScanState :=
  ⟨[], [], [], false⟩

/-- Markup text of the code-block paragraph built by `flush_code`:
`html.escape` of the newline-join of the buffer, then every space becomes
`&nbsp;` and every newline becomes `<br/>`.  The two trailing single-
character `str.replace` calls equal per-character maps because neither
replacement interferes with the other's pattern. -/
def codeMarkup (buf : List (List Char)) : List Char :=
  let t1 := htmlEscape (List.intercalate ('\n' :: []) buf)
  let t2 := (t1.map (fun c => if c = ' ' then nbspPat else (c :: []))).flatten
  (t2.map (fun c =>
    if c = '\n' then ('<' :: 'b' :: 'r' :: '/' :: '>' :: []) else (c :: []))).flatten

/-- The `flush_code` helper: when the code buffer is non-empty, append one
Code-style paragraph holding the buffer's markup and clear the buffer. -/
def flushCode (st : ScanState) : ScanState :=
  if st.code_buf.isEmpty then st
  else
    { st with
      flow := st.flow ++ (Flowable.Para Style.Code (codeMarkup st.code_buf) :: [])
      code_buf := [] }

/-- The `flush_table` helper: when the table buffer is non-empty, append the
table flowable and a spacer and clear the buffer. -/
def flushTable (st : ScanState) : ScanState :=
  if st.table_buf.isEmpty then st
  else
    { st with
      flow := st.flow ++ (Flowable.Table st.table_buf :: Flowable.Spacer :: [])
      table_buf := [] }

/-- Fence test of the scanner: `line.strip().startswith` a triple backtick
(written with `\x60` escapes). -/
def isFence (line : List Char) : Bool :=
  ('\x60' :: '\x60' :: '\x60' :: []).isPrefixOf (pyStrip line)

/-- Table-row test of the scanner: the line contains a pipe and does not
start, after `lstrip`, with a hash. -/
def isTableLine (line : List Char) : Bool :=
  line.contains '|' && !(('#' :: []).isPrefixOf (lstripP pyIsSpace line))

/-- Cell extraction of the table branch:
`[c.strip() for c in line.strip().strip(pipe).split(pipe)]`.  Note that
Python `strip("|")` removes every leading and trailing pipe, not one. -/
def tableCells (line : List Char) : List (List Char) :=
  (splitOnChar '|' (stripP (fun c => c = '|') (pyStrip line))).map pyStrip

/-- Separator-cell test: `re.fullmatch(r"-+", c.replace(" ", ""))` — after
removing spaces the cell is a non-empty run of hyphens. -/
def isSepCell (c : List Char) : Bool :=
  let d := c.filter (fun ch => !(ch = ' ' : Bool))
  !d.isEmpty && d.all (fun ch => ch = '-')

/-- One iteration of the scanner loop of `markdown_to_flowables`, applied to
an already-sanitized line: fence toggle, inside-fence accumulation, table
row / separator, table flush, headings, list item, blank line, paragraph —
in exactly the source's branch order. -/
def classify (st : ScanState) (line : List Char) : ScanState :=
  if isFence line then
    let st1 : ScanState := { st with in_code := !st.in_code }
    if st1.in_code then st1 else flushCode st1
  else if st.in_code then
    { st with code_buf := st.code_buf ++ (line :: []) }
  else if isTableLine line then
    let cells := tableCells line
    if cells.all isSepCell then st
    else { st with table_buf := st.table_buf ++ (cells.map fmt_inline :: []) }
  else
    let st2 := flushTable st
    if ('#' :: ' ' :: []).isPrefixOf line then
      { st2 with
        flow := st2.flow ++ (Flowable.Para Style.H1 (fmt_inline (line.drop 2)) :: []) }
    else if ('#' :: '#' :: ' ' :: []).isPrefixOf line then
      { st2 with
        flow := st2.flow ++ (Flowable.Para Style.H2 (fmt_inline (line.drop 3)) :: []) }
    else if ('#' :: '#' :: '#' :: ' ' :: []).isPrefixOf line then
      { st2 with
        flow := st2.flow ++ (Flowable.Para Style.H3 (fmt_inline (line.drop 4)) :: []) }
    else if ('-' :: ' ' :: []).isPrefixOf line || ('*' :: ' ' :: []).isPrefixOf line then
      { st2 with
        flow := st2.flow ++
          (Flowable.Para Style.Body ('•' :: ' ' :: fmt_inline (line.drop 2)) :: []) }
    else if (pyStrip line).isEmpty then
      { st2 with flow := st2.flow ++ (Flowable.Spacer :: []) }
    else
      { st2 with
        flow := st2.flow ++ (Flowable.Para Style.Body (fmt_inline line) :: []) }

/-- Full per-line step of the loop: `line = _sanitize(raw)` followed by the
classification. -/
def step (st : ScanState) (raw : List Char) : ScanState :=
  classify st (sanitize raw)

/-- Scanner run over a list of raw lines: append the synthetic trailing
empty line, fold the per-line step from the initial state, then the final
`flush_table(); flush_code()` — table first, code second. -/
def scanLines (ls : List (List Char)) : List Flowable :=
  (flushCode (flushTable ((ls ++ ([] :: [])).foldl step initState))).flow

/-- The `markdown_to_flowables` function: split `md.strip()` into lines and
run the scanner. -/
def toBlocks (md : List Char) : List Flowable :=
  scanLines (splitLines (pyStrip md))

/-- Four-line example input of the specification's end-to-end test: heading,
table header row, separator row, data row. -/
def demoMd : List Char :=
  ("### Demo\n| **Bold** | *Italic* |\n|----------|----------|\n| cell A   | cell B   |").toList

/-- C1: the inline formatter is claimed to wrap the delimited text in bold
and italic markup.  The code's replacement templates escape the backslash of
the backreference (raw string with a doubled backslash), so `re.sub` inserts
the literal two characters backslash-one and the delimited text is lost: on
the claim's own example the output is `<b>\1</b> and <i>\1</i>`.  This
contradicts the module's documented feature list (bold and italic "render
inside paragraphs and inside table cells"), so the code, not the claim, is
wrong; this theorem evaluates the embedded formatter at the failing input. -/
theorem c1_fmt_inline_backref_eval :
    fmt_inline (("**Bold** and *italic*").toList) =
      ("<b>\\1</b> and <i>\\1</i>").toList := by
  decide

/-- C2 counterexample: on the four-line demo input the converter emits four
flowables, not two — the heading, the table (whose inline cells hold the
literal backslash-one artifact of the C1 bug), the spacer appended by the
table flush, and the spacer for the synthetic trailing blank line. -/
theorem c2_counterexample :
    toBlocks demoMd =
      (Flowable.Para Style.H3 (("Demo").toList) ::
        Flowable.Table
          ((("<b>\\1</b>").toList :: ("<i>\\1</i>").toList :: []) ::
            (("cell A").toList :: ("cell B").toList :: []) :: []) ::
        Flowable.Spacer :: Flowable.Spacer :: []) ∧
    (toBlocks demoMd).length ≠ 2 := by
  constructor
  · decide
  · decide

/-- C2 amended: the demo input yields exactly four blocks — `Heading(3,
"Demo")`, the table with rows `[["<b>\1</b>", "<i>\1</i>"], ["cell A",
"cell B"]]` (literal backslash-one, per the inline-formatter slip), a spacer
from the table flush, and a spacer for the synthetic trailing blank line. -/
theorem c2_amended :
    toBlocks demoMd =
      (Flowable.Para Style.H3 (("Demo").toList) ::
        Flowable.Table
          ((("<b>\\1</b>").toList :: ("<i>\\1</i>").toList :: []) ::
            (("cell A").toList :: ("cell B").toList :: []) :: []) ::
        Flowable.Spacer :: Flowable.Spacer :: []) := by
  decide

/-- C4 counterexample: sanitizing decodes `&amp;nbsp;` to `&nbsp;`, and a
second sanitize pass decodes that to a space, so `sanitize` is not
idempotent. -/
theorem c4_counterexample :
    sanitize (sanitize (("&amp;nbsp;").toList)) ≠ sanitize (("&amp;nbsp;").toList) := by
  decide

/-- C5 counterexample: for the doubled-boundary-pipe line `||a|b||` the code
strips every leading and trailing pipe before splitting, producing the two
cells `a`, `b`; the claimed strip-one-pipe rule would instead keep the two
empty boundary cells `["", "a", "b", ""]`. -/
theorem c5_counterexample :
    tableCells (("||a|b||").toList) = (('a' :: []) :: ('b' :: []) :: []) ∧
    tableCells (("||a|b||").toList) ≠
      ([] :: ('a' :: []) :: ('b' :: []) :: [] :: []) := by
  constructor
  · decide
  · decide

/-- C7 counterexample: with an unterminated fence the synthetic trailing
empty line is consumed into the code buffer, so the emitted code block holds
the post-fence lines plus one extra empty line, not exactly the post-fence
lines. -/
theorem c7_counterexample :
    toBlocks (("\x60\x60\x60\ncode line").toList) =
      (Flowable.Para Style.Code (codeMarkup ((("code line").toList) :: [] :: [])) :: []) ∧
    toBlocks (("\x60\x60\x60\ncode line").toList) ≠
      (Flowable.Para Style.Code (codeMarkup ((("code line").toList) :: [])) :: []) := by
  constructor
  · decide
  · decide

/-- Dropping a dropped-while list again drops nothing. -/
theorem dropWhile_idem (p : Char → Bool) (l : List Char) :
    (l.dropWhile p).dropWhile p = l.dropWhile p := by
  induction l with
  | nil => rfl
  | cons x l ih =>
    cases h : p x
    · simp [List.dropWhile_cons, h]
    · simpa [List.dropWhile_cons, h] using ih

/-- A right-strip keeps an initial character that does not satisfy `p`. -/
theorem rstripP_cons (p : Char → Bool) (c : Char) (xs : List Char)
    (h : p c = false) :
    rstripP p (c :: xs) = c :: rstripP p xs := by
  unfold rstripP
  rw [List.reverse_cons, List.dropWhile_append]
  cases he : (xs.reverse.dropWhile p).isEmpty
  · simp [he, List.reverse_append]
  · simp [he, List.dropWhile_cons, h, List.isEmpty_iff.mp he]

/-- Right-stripping is idempotent. -/
theorem rstripP_idem (p : Char → Bool) (s : List Char) :
    rstripP p (rstripP p s) = rstripP p s := by
  unfold rstripP
  rw [List.reverse_reverse, dropWhile_idem]

/-- Left-stripping after a full strip drops nothing further. -/
theorem lstripP_rstripP_lstripP (p : Char → Bool) (s : List Char) :
    lstripP p (rstripP p (lstripP p s)) = rstripP p (lstripP p s) := by
  induction s with
  | nil => rfl
  | cons x s ih =>
    cases h : p x
    · unfold lstripP
      rw [List.dropWhile_cons_of_neg (by simp [h]), rstripP_cons p x s h,
        List.dropWhile_cons_of_neg (by simp [h])]
    · unfold lstripP at ih ⊢
      rw [List.dropWhile_cons_of_pos (by simp [h])]
      exact ih

/-- Python-style two-sided stripping is idempotent. -/
theorem stripP_idem (p : Char → Bool) (s : List Char) :
    stripP p (stripP p s) = stripP p s := by
  unfold stripP
  rw [lstripP_rstripP_lstripP, rstripP_idem]

/-- Whitespace stripping is idempotent. -/
theorem pyStrip_idem (s : List Char) : pyStrip (pyStrip s) = pyStrip s :=
  stripP_idem pyIsSpace s

/-- Prepending a non-whitespace character to an already-stripped string
survives another strip intact. -/
theorem pyStrip_cons_stripped (c : Char) (l : List Char)
    (h : pyIsSpace c = false) :
    pyStrip (c :: pyStrip l) = c :: pyStrip l := by
  unfold pyStrip stripP lstripP
  rw [List.dropWhile_cons_of_neg (by simp [h]), rstripP_cons _ _ _ h, rstripP_idem]

/-- C5 amended: the cell extraction strips every leading and trailing pipe
before splitting (Python `strip` removes all matching end characters), so an
extra boundary pipe on an already-stripped line is absorbed and changes no
cell — contrary to the claimed strip-exactly-one-pipe reading, under which
each extra pipe would contribute an empty boundary cell. -/
theorem c5_amended (l : List Char) :
    tableCells ('|' :: pyStrip l) = tableCells (pyStrip l) := by
  unfold tableCells
  rw [pyStrip_cons_stripped '|' l (by decide), pyStrip_idem]
  have hp : stripP (fun c => c = '|') ('|' :: pyStrip l) =
      stripP (fun c => c = '|') (pyStrip l) := by
    unfold stripP lstripP
    rw [List.dropWhile_cons_of_pos (by decide)]
  rw [hp]

/-- C5 amended witness: the absorption theorem applied at a concrete line. -/
theorem c5_witness :
    tableCells ('|' :: pyStrip (("a|b").toList)) = tableCells (pyStrip (("a|b").toList)) :=
  c5_amended (("a|b").toList)

/-- C8: in this executable embedding every operation the scanner performs
(strip, split, prefix tests, regex substitution, buffering, flushing) is a
total function, so the conversion is total by construction: every input
character list evaluates to some flowable list.  This mirrors the source,
which uses no partial operation — slicing, `strip`, `split`, `re.sub` and
list appends raise no exception for any string input. -/
theorem c8_total (md : List Char) : ∃ bs : List Flowable, toBlocks md = bs :=
  ⟨toBlocks md, rfl⟩

/-- C8 witness: totality at a concrete input. -/
theorem c8_witness : ∃ bs : List Flowable, toBlocks (("x").toList) = bs :=
  c8_total (("x").toList)

/-- Well-formedness predicate for C9: every `Table` flowable in the list is
immediately followed by a `Spacer` flowable. -/
def tablesSpaced : List Flowable → Bool
  | [] => true
  | Flowable.Table _ :: [] => false
  | Flowable.Table _ :: Flowable.Spacer :: rest =>
    tablesSpaced (Flowable.Spacer :: rest)
  | Flowable.Table _ :: Flowable.Para _ _ :: _ => false
  | Flowable.Table _ :: Flowable.Table _ :: _ => false
  | _ :: rest => tablesSpaced rest

/-- Concatenation of two `tablesSpaced` lists is `tablesSpaced`. -/
theorem tablesSpaced_append (a b : List Flowable)
    (ha : tablesSpaced a = true) (hb : tablesSpaced b = true) :
    tablesSpaced (a ++ b) = true := by
  induction a with
  | nil => simpa using hb
  | cons x a ih =>
    cases x with
    | Para st t =>
      simp only [tablesSpaced, List.cons_append] at ha ⊢
      exact ih ha
    | Spacer =>
      simp only [tablesSpaced, List.cons_append] at ha ⊢
      exact ih ha
    | Table r =>
      cases a with
      | nil => simp [tablesSpaced] at ha
      | cons y a' =>
        cases y with
        | Para st t => simp [tablesSpaced] at ha
        | Table r' => simp [tablesSpaced] at ha
        | Spacer =>
          simp only [tablesSpaced, List.cons_append] at ha ⊢
          exact ih ha

/-- `flush_table` always leaves an empty table buffer. -/
theorem flushTable_table_buf (st : ScanState) : (flushTable st).table_buf = [] := by
  unfold flushTable
  split
  · next h => exact List.isEmpty_iff.mp h
  · rfl

/-- `flush_table` does not touch the code buffer. -/
theorem flushTable_code_buf (st : ScanState) :
    (flushTable st).code_buf = st.code_buf := by
  unfold flushTable
  split <;> rfl

/-- `flush_table` does not touch the fence flag. -/
theorem flushTable_in_code (st : ScanState) :
    (flushTable st).in_code = st.in_code := by
  unfold flushTable
  split <;> rfl

/-- `flush_table` appends to the output a chunk that is `tablesSpaced`. -/
theorem flushTable_flow (st : ScanState) :
    ∃ ch, (flushTable st).flow = st.flow ++ ch ∧ tablesSpaced ch = true := by
  unfold flushTable
  split
  · exact ⟨[], by simp, rfl⟩
  · exact ⟨_, rfl, by simp [tablesSpaced]⟩

/-- `flush_code` appends to the output a chunk that is `tablesSpaced`. -/
theorem flushCode_flow (st : ScanState) :
    ∃ ch, (flushCode st).flow = st.flow ++ ch ∧ tablesSpaced ch = true := by
  unfold flushCode
  split
  · exact ⟨[], by simp, rfl⟩
  · exact ⟨_, rfl, by simp [tablesSpaced]⟩

/-- One scanner step appends to the output a chunk that is `tablesSpaced`:
tables enter the output only through `flush_table`, paired with their
spacer. -/
theorem classify_flow_chunk (st : ScanState) (line : List Char) :
    ∃ ch, (classify st line).flow = st.flow ++ ch ∧ tablesSpaced ch = true := by
  unfold classify
  by_cases hf : isFence line = true
  · simp only [hf, if_true]
    by_cases hc : st.in_code = true
    · simp only [hc, Bool.not_true, if_neg (by simp : ¬ (false = true))]
      exact flushCode_flow _
    · simp only [Bool.not_eq_true] at hc
      simp only [hc, Bool.not_false, if_pos rfl]
      exact ⟨[], by simp, rfl⟩
  · simp only [if_neg hf]
    by_cases hc : st.in_code = true
    · simp only [hc, if_pos rfl]
      exact ⟨[], by simp, rfl⟩
    · simp only [if_neg hc]
      by_cases ht : isTableLine line = true
      · simp only [ht, if_true]
        by_cases hsep : (tableCells line).all isSepCell = true
        · simp only [hsep, if_true]
          exact ⟨[], by simp, rfl⟩
        · simp only [if_neg hsep]
          exact ⟨[], by simp, rfl⟩
      · simp only [if_neg ht]
        obtain ⟨ch, hch, hsp⟩ := flushTable_flow st
        have happ : ∀ f : Flowable, tablesSpaced (f :: []) = true →
            ∃ ch2, (flushTable st).flow ++ (f :: []) = st.flow ++ ch2 ∧
              tablesSpaced ch2 = true := by
          intro f hfsp
          exact ⟨ch ++ (f :: []), by rw [hch, List.append_assoc],
            tablesSpaced_append _ _ hsp hfsp⟩
        by_cases h1 : (('#' :: ' ' :: []).isPrefixOf line) = true
        · simp only [h1, if_true]
          exact happ _ (by simp [tablesSpaced])
        · simp only [if_neg h1]
          by_cases h2 : (('#' :: '#' :: ' ' :: []).isPrefixOf line) = true
          · simp only [h2, if_true]
            exact happ _ (by simp [tablesSpaced])
          · simp only [if_neg h2]
            by_cases h3 : (('#' :: '#' :: '#' :: ' ' :: []).isPrefixOf line) = true
            · simp only [h3, if_true]
              exact happ _ (by simp [tablesSpaced])
            · simp only [if_neg h3]
              by_cases h4 : ((('-' :: ' ' :: []).isPrefixOf line) ||
                  (('*' :: ' ' :: []).isPrefixOf line)) = true
              · simp only [h4, if_true]
                exact happ _ (by simp [tablesSpaced])
              · simp only [if_neg h4]
                by_cases h5 : (pyStrip line).isEmpty = true
                · simp only [h5, if_true]
                  exact happ _ (by simp [tablesSpaced])
                · simp only [if_neg h5]
                  exact happ _ (by simp [tablesSpaced])

/-- The scanner fold preserves the `tablesSpaced` invariant of the output. -/
theorem foldl_tablesSpaced (ls : List (List Char)) (st : ScanState)
    (h : tablesSpaced st.flow = true) :
    tablesSpaced ((ls.foldl step st).flow) = true := by
  induction ls generalizing st with
  | nil => simpa using h
  | cons l ls ih =>
    rw [List.foldl_cons]
    refine ih _ ?_
    obtain ⟨ch, hch, hsp⟩ := classify_flow_chunk st (sanitize l)
    show tablesSpaced (classify st (sanitize l)).flow = true
    rw [hch]
    exact tablesSpaced_append _ _ h hsp

/-- In a `tablesSpaced` list, whatever follows a `Table` element starts with
a `Spacer`. -/
theorem tablesSpaced_split (l₁ : List Flowable) (r : List (List (List Char)))
    (l₂ : List Flowable) (h : tablesSpaced (l₁ ++ Flowable.Table r :: l₂) = true) :
    ∃ l₃, l₂ = Flowable.Spacer :: l₃ := by
  induction l₁ generalizing r l₂ with
  | nil =>
    cases l₂ with
    | nil => simp [tablesSpaced] at h
    | cons y l₃ =>
      cases y with
      | Para st t => simp [tablesSpaced] at h
      | Table r' => simp [tablesSpaced] at h
      | Spacer => exact ⟨l₃, rfl⟩
  | cons x l₁ ih =>
    cases x with
    | Para st t =>
      simp only [tablesSpaced, List.cons_append] at h
      exact ih r l₂ h
    | Spacer =>
      simp only [tablesSpaced, List.cons_append] at h
      exact ih r l₂ h
    | Table r' =>
      cases l₁ with
      | nil => simp [tablesSpaced, List.cons_append] at h
      | cons z l₁' =>
        cases z with
        | Para st t => simp [tablesSpaced, List.cons_append] at h
        | Table r'' => simp [tablesSpaced, List.cons_append] at h
        | Spacer =>
          simp only [tablesSpaced, List.cons_append] at h
          exact ih r l₂ h

/-- C9: every `Table` flowable appended to the converter's output is
immediately followed by a `Spacer` flowable — `flush_table` is the only way
a table enters the output and it always appends the pair together. -/
theorem c9_table_spacer (md : List Char) (l₁ : List Flowable)
    (r : List (List (List Char))) (l₂ : List Flowable)
    (h : toBlocks md = l₁ ++ Flowable.Table r :: l₂) :
    ∃ l₃, l₂ = Flowable.Spacer :: l₃ := by
  have hts : tablesSpaced (toBlocks md) = true := by
    unfold toBlocks scanLines
    obtain ⟨ch1, h1, s1⟩ := flushTable_flow
      (((splitLines (pyStrip md)) ++ ([] :: [])).foldl step initState)
    obtain ⟨ch2, h2, s2⟩ := flushCode_flow
      (flushTable (((splitLines (pyStrip md)) ++ ([] :: [])).foldl step initState))
    rw [h2, h1]
    refine tablesSpaced_append _ _ (tablesSpaced_append _ _ ?_ s1) s2
    exact foldl_tablesSpaced _ _ rfl
  rw [h] at hts
  exact tablesSpaced_split l₁ r l₂ hts

/-- C9 witness: a one-row table input; the theorem applies at the concrete
output split and yields the spacer immediately after the table. -/
theorem c9_witness :
    ∃ l₃, (Flowable.Spacer :: Flowable.Spacer :: [] : List Flowable) =
      Flowable.Spacer :: l₃ :=
  c9_table_spacer (("|a|").toList) [] ((('a' :: []) :: []) :: [])
    (Flowable.Spacer :: Flowable.Spacer :: []) (by decide)

/-- Sanitizing the empty line gives the empty line. -/
theorem sanitize_nil : sanitize ([] : List Char) = [] := rfl

/-- The empty line is not a fence line. -/
theorem isFence_nil : isFence ([] : List Char) = false := by decide

/-- The empty line is not a table line. -/
theorem isTableLine_nil : isTableLine ([] : List Char) = false := by decide

/-- Classifying the empty line outside a fence flushes the table buffer and
appends one spacer. -/
theorem classify_nil (st : ScanState) (hc : st.in_code = false) :
    classify st [] = { flushTable st with
      flow := (flushTable st).flow ++ (Flowable.Spacer :: []) } := by
  unfold classify
  rw [if_neg (by simp [isFence_nil] : ¬ isFence ([] : List Char) = true),
    if_neg (by simp [hc] : ¬ st.in_code = true),
    if_neg (by simp [isTableLine_nil] : ¬ isTableLine ([] : List Char) = true),
    if_neg (by decide :
      ¬ (('#' :: ' ' :: []).isPrefixOf ([] : List Char)) = true),
    if_neg (by decide :
      ¬ (('#' :: '#' :: ' ' :: []).isPrefixOf ([] : List Char)) = true),
    if_neg (by decide :
      ¬ (('#' :: '#' :: '#' :: ' ' :: []).isPrefixOf ([] : List Char)) = true),
    if_neg (by decide :
      ¬ ((('-' :: ' ' :: []).isPrefixOf ([] : List Char)) ||
         (('*' :: ' ' :: []).isPrefixOf ([] : List Char))) = true),
    if_pos (by decide : (pyStrip ([] : List Char)).isEmpty = true)]

/-- Classifying the empty line inside a fence appends it to the code
buffer. -/
theorem classify_nil_in_code (st : ScanState) (hc : st.in_code = true) :
    classify st [] = { st with code_buf := st.code_buf ++ ([] :: []) } := by
  unfold classify
  rw [if_neg (by simp [isFence_nil] : ¬ isFence ([] : List Char) = true),
    if_pos hc]

/-- C10: the output of the converter is never empty — the synthetic trailing
empty line either becomes a spacer (outside a fence) or lands in the code
buffer whose final flush emits a code paragraph — and the empty input yields
exactly one spacer. -/
theorem c10_nonempty :
    (∀ md : List Char, toBlocks md ≠ []) ∧
    toBlocks [] = (Flowable.Spacer :: []) := by
  refine ⟨?_, by decide⟩
  intro md
  unfold toBlocks scanLines
  rw [List.foldl_append, List.foldl_cons, List.foldl_nil]
  set st := (splitLines (pyStrip md)).foldl step initState with hst
  have hstep : step st [] = classify st [] := rfl
  rw [hstep]
  cases hc : st.in_code
  · rw [classify_nil st hc]
    obtain ⟨ch1, h1, _⟩ := flushTable_flow
      { flushTable st with flow := (flushTable st).flow ++ (Flowable.Spacer :: []) }
    obtain ⟨ch2, h2, _⟩ := flushCode_flow (flushTable
      { flushTable st with flow := (flushTable st).flow ++ (Flowable.Spacer :: []) })
    rw [h2, h1]
    simp
  · rw [classify_nil_in_code st hc]
    unfold flushCode
    rw [flushTable_code_buf]
    rw [if_neg (by simp : ¬ (st.code_buf ++ ([] :: []) : List (List Char)).isEmpty = true)]
    simp [flushTable_code_buf]

/-- Stripping a hash-initial line keeps the hash in front. -/
theorem pyStrip_hash_cons (xs : List Char) :
    pyStrip ('#' :: xs) = '#' :: rstripP pyIsSpace xs := by
  unfold pyStrip stripP lstripP
  rw [List.dropWhile_cons_of_neg (by decide), rstripP_cons _ _ _ (by decide)]

/-- A hash-initial line is never a fence line. -/
theorem isFence_hash (xs : List Char) : isFence ('#' :: xs) = false := by
  unfold isFence
  rw [pyStrip_hash_cons]
  rfl

/-- A hash-initial line is never a table line, pipes or not: the left-strip
starts with the hash. -/
theorem isTableLine_hash (xs : List Char) : isTableLine ('#' :: xs) = false := by
  unfold isTableLine lstripP
  rw [List.dropWhile_cons_of_neg (by decide)]
  simp [List.isPrefixOf]

/-- Heading style selected for a given hash count. -/
def headingStyle : Nat → Style
  | 1 => Style.H1
  | 2 => Style.H2
  | _ => Style.H3

/-- Heading level encoded by a style. -/
def headingLevel : Style → Nat
  | Style.H1 => 1
  | Style.H2 => 2
  | Style.H3 => 3
  | _ => 0

/-- C6: a line of one, two or three hashes followed by a space, classified
outside a code fence, flushes any pending table and then emits exactly one
heading paragraph whose style matches the hash count exactly (the source's
prefix tests are mutually exclusive because the character after the tested
hashes must be a space) and whose text is the inline-formatted remainder of
the line after the hash prefix. -/
theorem c6_heading (st : ScanState) (t : List Char) (k : Nat)
    (hin : st.in_code = false) (hk : k = 1 ∨ k = 2 ∨ k = 3) :
    classify st (List.replicate k '#' ++ ' ' :: t) =
      { flushTable st with
        flow := (flushTable st).flow ++
          (Flowable.Para (headingStyle k) (fmt_inline t) :: []) } ∧
    headingLevel (headingStyle k) = k := by
  rcases hk with rfl | rfl | rfl
  · refine ⟨?_, by decide⟩
    show classify st ('#' :: ' ' :: t) = _
    unfold classify
    rw [if_neg (by simp [isFence_hash] : ¬ isFence ('#' :: ' ' :: t) = true),
      if_neg (by simp [hin] : ¬ st.in_code = true),
      if_neg (by simp [isTableLine_hash] : ¬ isTableLine ('#' :: ' ' :: t) = true),
      if_pos (by simp [List.isPrefixOf] :
        (('#' :: ' ' :: []).isPrefixOf ('#' :: ' ' :: t)) = true)]
    rfl
  · refine ⟨?_, by decide⟩
    show classify st ('#' :: '#' :: ' ' :: t) = _
    unfold classify
    rw [if_neg (by simp [isFence_hash] : ¬ isFence ('#' :: '#' :: ' ' :: t) = true),
      if_neg (by simp [hin] : ¬ st.in_code = true),
      if_neg (by simp [isTableLine_hash] :
        ¬ isTableLine ('#' :: '#' :: ' ' :: t) = true),
      if_neg (by simp [List.isPrefixOf] :
        ¬ (('#' :: ' ' :: []).isPrefixOf ('#' :: '#' :: ' ' :: t)) = true),
      if_pos (by simp [List.isPrefixOf] :
        (('#' :: '#' :: ' ' :: []).isPrefixOf ('#' :: '#' :: ' ' :: t)) = true)]
    rfl
  · refine ⟨?_, by decide⟩
    show classify st ('#' :: '#' :: '#' :: ' ' :: t) = _
    unfold classify
    rw [if_neg (by simp [isFence_hash] :
        ¬ isFence ('#' :: '#' :: '#' :: ' ' :: t) = true),
      if_neg (by simp [hin] : ¬ st.in_code = true),
      if_neg (by simp [isTableLine_hash] :
        ¬ isTableLine ('#' :: '#' :: '#' :: ' ' :: t) = true),
      if_neg (by simp [List.isPrefixOf] :
        ¬ (('#' :: ' ' :: []).isPrefixOf ('#' :: '#' :: '#' :: ' ' :: t)) = true),
      if_neg (by simp [List.isPrefixOf] :
        ¬ (('#' :: '#' :: ' ' :: []).isPrefixOf ('#' :: '#' :: '#' :: ' ' :: t)) = true),
      if_pos (by simp [List.isPrefixOf] :
        (('#' :: '#' :: '#' :: ' ' :: []).isPrefixOf ('#' :: '#' :: '#' :: ' ' :: t)) = true)]
    rfl

/-- C6 witness: the heading theorem applied at the initial state, three
hashes and the text `Title`. -/
theorem c6_witness :
    classify initState (List.replicate 3 '#' ++ ' ' :: (("Title").toList)) =
      { flushTable initState with
        flow := (flushTable initState).flow ++
          (Flowable.Para (headingStyle 3) (fmt_inline (("Title").toList)) :: []) } :=
  (c6_heading initState (("Title").toList) 3 rfl (Or.inr (Or.inr rfl))).left

/-- C3 amended: the flush-before-other-blocks invariant does hold for every
line handled below the fence branch: whenever a line outside a code fence is
neither a fence toggle nor a table row, the table buffer is flushed before
the line's own block is appended, so the step leaves an empty table buffer.
(The fence branch itself is the exception exhibited by the counterexample.) -/
theorem c3_amended (st : ScanState) (line : List Char)
    (hin : st.in_code = false) (hf : isFence line = false)
    (ht : isTableLine line = false) :
    (classify st line).table_buf = [] := by
  unfold classify
  rw [if_neg (by simp [hf] : ¬ isFence line = true),
    if_neg (by simp [hin] : ¬ st.in_code = true),
    if_neg (by simp [ht] : ¬ isTableLine line = true)]
  by_cases h1 : (('#' :: ' ' :: []).isPrefixOf line) = true
  · simp only [h1, if_true]
    exact flushTable_table_buf st
  · simp only [if_neg h1]
    by_cases h2 : (('#' :: '#' :: ' ' :: []).isPrefixOf line) = true
    · simp only [h2, if_true]
      exact flushTable_table_buf st
    · simp only [if_neg h2]
      by_cases h3 : (('#' :: '#' :: '#' :: ' ' :: []).isPrefixOf line) = true
      · simp only [h3, if_true]
        exact flushTable_table_buf st
      · simp only [if_neg h3]
        by_cases h4 : ((('-' :: ' ' :: []).isPrefixOf line) ||
            (('*' :: ' ' :: []).isPrefixOf line)) = true
        · simp only [h4, if_true]
          exact flushTable_table_buf st
        · simp only [if_neg h4]
          by_cases h5 : (pyStrip line).isEmpty = true
          · simp only [h5, if_true]
            exact flushTable_table_buf st
          · simp only [if_neg h5]
            exact flushTable_table_buf st

/-- C3 amended witness: a pending table row is flushed when a plain
paragraph line arrives. -/
theorem c3_witness :
    (classify ⟨[], [], ((('a' :: []) :: []) :: []), false⟩ (("hello").toList)).table_buf = [] :=
  c3_amended ⟨[], [], ((('a' :: []) :: []) :: []), false⟩ (("hello").toList)
    rfl (by decide) (by decide)

/-- While inside a code fence, scanning lines that are not fence toggles
appends their sanitized text to the code buffer and changes nothing else. -/
theorem foldl_in_code :
    ∀ (ls : List (List Char)) (st : ScanState), st.in_code = true →
      (∀ l ∈ ls, isFence (sanitize l) = false) →
      ls.foldl step st = { st with code_buf := st.code_buf ++ ls.map sanitize } := by
  intro ls
  induction ls with
  | nil =>
    intro st hin h
    simp
  | cons l ls ih =>
    intro st hin h
    have hstep : step st l =
        { st with code_buf := st.code_buf ++ (sanitize l :: []) } := by
      unfold step classify
      rw [if_neg (by simp [h l (by simp)] : ¬ isFence (sanitize l) = true),
        if_pos hin]
    rw [List.foldl_cons, hstep,
      ih { st with code_buf := st.code_buf ++ (sanitize l :: []) } (by exact hin)
        (fun l' hl' => h l' (List.mem_cons_of_mem _ hl'))]
    simp [List.append_assoc]

/-- C7 amended: an opening fence with no later fence line still yields
exactly one code block, but its content is the post-fence input lines plus
one synthetic trailing empty line — the sentinel line appended to force the
final flush is consumed into the unterminated code buffer. -/
theorem c7_amended (post : List (List Char))
    (h : ∀ l ∈ post, isFence (sanitize l) = false) :
    scanLines (('\x60' :: '\x60' :: '\x60' :: []) :: post) =
      (Flowable.Para Style.Code
        (codeMarkup (post.map sanitize ++ ([] :: []))) :: []) := by
  unfold scanLines
  rw [List.cons_append, List.foldl_cons]
  have h0 : step initState ('\x60' :: '\x60' :: '\x60' :: []) =
      (⟨[], [], [], true⟩ : ScanState) := by decide
  rw [h0]
  have h2 : ∀ l ∈ post ++ ([] :: []), isFence (sanitize l) = false := by
    intro l hl
    rcases List.mem_append.mp hl with h' | h'
    · exact h l h'
    · have : l = [] := by simpa using h'
      subst this
      decide
  rw [foldl_in_code _ _ rfl h2]
  have h3 : ∀ st : ScanState, st.table_buf = [] → flushTable st = st := by
    intro st hb
    unfold flushTable
    rw [if_pos (by simp [hb])]
  rw [h3 _ rfl]
  unfold flushCode
  simp [sanitize_nil, List.map_append]

/-- C7 witness: the amended theorem applied to the single post-fence line
`code line`. -/
theorem c7_witness :
    scanLines (('\x60' :: '\x60' :: '\x60' :: []) :: ((("code line").toList) :: [])) =
      (Flowable.Para Style.Code
        (codeMarkup (((("code line").toList) :: []).map sanitize ++ ([] :: []))) :: []) :=
  c7_amended ((("code line").toList) :: []) (by decide)

/-- Characters of a replacement pass come from the input or from the
replacement string. -/
theorem mem_replL (pat rep : List Char) :
    ∀ (n : Nat) (s : List Char) (c : Char),
      c ∈ replL pat rep n s → c ∈ s ∨ c ∈ rep := by
  intro n
  induction n with
  | zero =>
    intro s c hc
    cases s with
    | nil => simp [replL] at hc
    | cons x r => exact Or.inl (by simpa [replL] using hc)
  | succ n ih =>
    intro s c hc
    cases s with
    | nil => simp [replL] at hc
    | cons x r =>
      simp only [replL] at hc
      by_cases hp : (!pat.isEmpty && pat.isPrefixOf (x :: r)) = true
      · rw [if_pos hp] at hc
        rcases List.mem_append.mp hc with h | h
        · exact Or.inr h
        · rcases ih _ _ h with h' | h'
          · exact Or.inl (List.mem_of_mem_drop h')
          · exact Or.inr h'
      · rw [if_neg hp] at hc
        rcases List.mem_cons.mp hc with rfl | h
        · exact Or.inl (List.mem_cons_self _ _)
        · rcases ih _ _ h with h' | h'
          · exact Or.inl (List.mem_cons_of_mem _ h')
          · exact Or.inr h'

/-- Characters of `replaceList` come from the input or the replacement. -/
theorem mem_replaceList (pat rep s : List Char) (c : Char)
    (h : c ∈ replaceList pat rep s) : c ∈ s ∨ c ∈ rep :=
  mem_replL pat rep s.length s c h

/-- Replacement is the identity when the pattern does not occur. -/
theorem replL_eq_self (pat rep : List Char) :
    ∀ (n : Nat) (s : List Char), hasSub pat s = false → replL pat rep n s = s := by
  intro n
  induction n with
  | zero =>
    intro s h
    cases s <;> simp [replL]
  | succ n ih =>
    intro s h
    cases s with
    | nil => simp [replL]
    | cons x r =>
      unfold hasSub at h
      rw [List.tails_cons] at h
      simp only [List.any_cons, Bool.or_eq_false_iff] at h
      obtain ⟨hnp, hr⟩ := h
      simp only [replL]
      rw [if_neg (by simp [hnp]), ih r hr]

/-- `replaceList` is the identity when the pattern does not occur. -/
theorem replaceList_eq_self (pat rep s : List Char) (h : hasSub pat s = false) :
    replaceList pat rep s = s :=
  replL_eq_self pat rep s.length s h

/-- The glyph-replacement stage is the identity on strings whose characters
are all outside the replacement table. -/
theorem replStep_eq_self (t : List Char)
    (h : ∀ c ∈ t, replChar c = (c :: [])) : replStep t = t := by
  induction t with
  | nil => rfl
  | cons x t ih =>
    unfold replStep at ih ⊢
    rw [List.map_cons, List.flatten_cons, h x (by simp),
      ih (fun c hc => h c (List.mem_cons_of_mem _ hc))]
    rfl

/-- Every character of the glyph-replacement output is outside the
replacement table. -/
theorem replChar_of_mem_replStep (s : List Char) (c : Char)
    (h : c ∈ replStep s) : replChar c = (c :: []) := by
  unfold replStep at h
  rw [List.mem_flatten] at h
  obtain ⟨l, hl, hc⟩ := h
  rw [List.mem_map] at hl
  obtain ⟨d, hd, rfl⟩ := hl
  unfold replChar at hc
  split_ifs at hc with h1 h2 h3 h4 h5 h6
  · have : c = '-' := by simpa using hc
    subst this
    decide
  · have : c = '-' := by simpa using hc
    subst this
    decide
  · have : c = ' ' := by simpa using hc
    subst this
    decide
  · have : c = ' ' := by simpa using hc
    subst this
    decide
  · have : c = '-' := by simpa using hc
    subst this
    decide
  · simp at hc
  · have : c = d := by simpa using hc
    subst this
    unfold replChar
    rw [if_neg h1, if_neg h2, if_neg h3, if_neg h4, if_neg h5, if_neg h6]

/-- Every character of a sanitized string passes the category filter. -/
theorem keepChar_of_mem_sanitize (s : List Char) (c : Char)
    (h : c ∈ sanitize s) : keepChar c = true := by
  unfold sanitize entStep at h
  rcases mem_replaceList _ _ _ _ h with h | h
  · rcases mem_replaceList _ _ _ _ h with h | h
    · rcases mem_replaceList _ _ _ _ h with h | h
      · exact (List.mem_filter.mp h).2
      · have : c = ' ' := by simpa using h
        subst this
        decide
    · have : c = '"' := by simpa using h
      subst this
      decide
  · have : c = '&' := by simpa using h
    subst this
    decide

/-- Every character of a sanitized string is outside the glyph-replacement
table. -/
theorem nokey_of_mem_sanitize (s : List Char) (c : Char)
    (h : c ∈ sanitize s) : replChar c = (c :: []) := by
  unfold sanitize entStep at h
  rcases mem_replaceList _ _ _ _ h with h | h
  · rcases mem_replaceList _ _ _ _ h with h | h
    · rcases mem_replaceList _ _ _ _ h with h | h
      · exact replChar_of_mem_replStep s c (List.mem_of_mem_filter h)
      · have : c = ' ' := by simpa using h
        subst this
        decide
    · have : c = '"' := by simpa using h
      subst this
      decide
  · have : c = '&' := by simpa using h
    subst this
    decide

/-- C4 amended: `sanitize` is idempotent exactly on inputs whose sanitized
form no longer contains any of the three literal entities — the glyph table
and the category filter never fire on sanitizer output, so a second pass can
differ only through the final entity-decoding stage, which the last decode
(ampersand) can re-arm, as in the counterexample `&amp;nbsp;`. -/
theorem c4_amended (s : List Char)
    (h1 : hasSub nbspPat (sanitize s) = false)
    (h2 : hasSub quotPat (sanitize s) = false)
    (h3 : hasSub ampPat (sanitize s) = false) :
    sanitize (sanitize s) = sanitize s := by
  have hk : replStep (sanitize s) = sanitize s :=
    replStep_eq_self _ (fun c hc => nokey_of_mem_sanitize s c hc)
  have hf : ctrlStep (sanitize s) = sanitize s :=
    List.filter_eq_self.mpr (fun c hc => keepChar_of_mem_sanitize s c hc)
  show entStep (ctrlStep (replStep (sanitize s))) = sanitize s
  rw [hk]
  show entStep (ctrlStep (sanitize s)) = sanitize s
  rw [hf]
  unfold entStep
  rw [replaceList_eq_self _ _ _ h1, replaceList_eq_self _ _ _ h2,
    replaceList_eq_self _ _ _ h3]

/-- C4 witness: the amended idempotence theorem applied to a plain string
with no entity occurrences in its sanitized form. -/
theorem c4_witness :
    sanitize (sanitize (("hello").toList)) = sanitize (("hello").toList) :=
  c4_amended (("hello").toList) (by decide) (by decide) (by decide)

/-- C3 counterexample: after scanning a table row and then a complete fenced
code block, the code paragraph is already in the output while the table row
is still buffered and unflushed — the fence branch runs before the table
flush, violating the claimed flush-before-other-blocks invariant. -/
theorem c3_counterexample :
    ((("| a | b |").toList :: ("\x60\x60\x60").toList ::
        ("x").toList :: ("\x60\x60\x60").toList :: []).foldl step initState).table_buf ≠ [] ∧
    ((("| a | b |").toList :: ("\x60\x60\x60").toList ::
        ("x").toList :: ("\x60\x60\x60").toList :: []).foldl step initState).flow =
      (Flowable.Para Style.Code ('x' :: []) :: []) := by
  constructor
  · decide
  · decide

end PdfGen
